import Mathlib

/-!
# Verification of `spatialpandas.geometry.polygon`

A shallow embedding of the polygon geometry module: a ragged (CSR-style)
buffer layout for collections of polygons, together with the measure kernels
(perimeter length, shoelace area) and the vectorized bounds-intersection
kernel, as described by the module and its specification.

Coordinates are modelled as exact rationals (the source uses 64-bit floats);
perimeter lengths live in `ℝ` because they involve square roots.  The
missing-value sentinel (NaN in the source's float result arrays) is modelled
as `Option.none`.
-/

namespace SpatialPandas

/-! ## Ragged ring-buffer layout (§3 of the spec)

`ringSlice values a b` extracts the flat coordinate range of a ring whose
inner offsets (in coordinate-pair units) are `a` and `b`: floats
`[2*a, 2*b)` of the flat buffer. -/

def ringSlice (values : List ℚ) (a b : ℕ) : List ℚ :=
  (values.drop (2 * a)).take (2 * b - 2 * a)

/-- The list of flat ring coordinate ranges addressed by consecutive pairs of
an inner-offsets array: ring `i` occupies `[offsets[i], offsets[i+1])` in
coordinate-pair units. -/
def ringsOf (values : List ℚ) (offsets : List ℕ) : List (List ℚ) :=
  (offsets.zip offsets.tail).map (fun p => ringSlice values p.1 p.2)

/-- Reinterpret a flat coordinate list as consecutive `(x, y)` pairs. -/
def toPoints : List ℚ → List (ℚ × ℚ)
  | x :: y :: rest => (x, y) :: toPoints rest
  | _ => []

/-- The edges of an implicitly-closed ring of points: each consecutive pair,
plus the closing edge from the last point back to the first. -/
def closedEdges (pts : List (ℚ × ℚ)) : List ((ℚ × ℚ) × (ℚ × ℚ)) :=
  match pts with
  | [] => []
  | p :: _ => pts.zip (pts.tail ++ [p])

/-! ## Measure kernels (§4.1 of the spec)

`compute_line_length` and `compute_area` are kernels of
`spatialpandas.geometry._algorithms.measures`, called by `Polygon.length`,
`Polygon.area` and the collection reductions. -/

/-- Euclidean distance between two rational points, as a real number. -/
noncomputable def distR (p q : ℚ × ℚ) : ℝ :=
  Real.sqrt (((q.1 - p.1) ^ 2 + (q.2 - p.2) ^ 2 : ℚ) : ℝ)

/-- Perimeter of one ring given as a flat coordinate list: the sum of
Euclidean distances between consecutive points including the implicit
closing edge.  A degenerate ring (fewer than 3 points, i.e. fewer than
6 floats) contributes zero. -/
noncomputable def ringPerimeter (flat : List ℚ) : ℝ :=
  if flat.length < 6 then 0
  else ((closedEdges (toPoints flat)).map (fun e => distR e.1 e.2)).sum

/-- Twice the signed shoelace sum of an implicitly-closed ring of points. -/
def shoelaceSum (pts : List (ℚ × ℚ)) : ℚ :=
  ((closedEdges pts).map (fun e => e.1.1 * e.2.2 - e.2.1 * e.1.2)).sum

/-- Signed shoelace area of one flat ring; `0` for a degenerate ring with
fewer than 3 points. -/
def ringSignedArea (flat : List ℚ) : ℚ :=
  if flat.length < 6 then 0 else shoelaceSum (toPoints flat) / 2

/-- Modelled from the spec: kernel `compute_line_length` of the missing
`_algorithms/measures` module — the sum over every ring's perimeter, where a
ring's perimeter is the sum of Euclidean distances between consecutive
points including the implicit closing edge from the last point back to the
first; each ring with fewer than 3 points contributes zero. -/
noncomputable def compute_line_length (values : List ℚ) (offsets : List ℕ) : ℝ :=
  ((ringsOf values offsets).map ringPerimeter).sum

/-- Modelled from the spec: kernel `compute_area` of the missing
`_algorithms/measures` module — the magnitude of the exterior ring's signed
shoelace area (its sign is consumed internally), minus the sum of absolute
areas of all interior (hole) rings; a ring with fewer than 3 points counts as
zero. -/
def compute_area (values : List ℚ) (offsets : List ℕ) : ℚ :=
  match ringsOf values offsets with
  | [] => 0
  | ext :: holes => |ringSignedArea ext| - (holes.map (fun h => |ringSignedArea h|)).sum

/-! ## Bounds-intersection kernel (§4.2 of the spec) -/

/-- An axis-aligned query rectangle `(x0, y0, x1, y1)`. -/
structure Bounds where
  x0 : ℚ
  y0 : ℚ
  x1 : ℚ
  y1 : ℚ
deriving DecidableEq

/-- Exact segment / axis-aligned-rectangle overlap test: the bounding boxes
must overlap and the rectangle's corners must not lie all strictly on one
side of the segment's supporting line. -/
def edgeIntersectsBounds (bd : Bounds) (e : (ℚ × ℚ) × (ℚ × ℚ)) : Bool :=
  let ax := e.1.1
  let ay := e.1.2
  let bx := e.2.1
  let yb := e.2.2
  let f := fun px py => (bx - ax) * (py - ay) - (yb - ay) * (px - ax)
  decide (bd.x0 ≤ max ax bx) && decide (min ax bx ≤ bd.x1) &&
  decide (bd.y0 ≤ max ay yb) && decide (min ay yb ≤ bd.y1) &&
  !((decide (0 < f bd.x0 bd.y0) && decide (0 < f bd.x1 bd.y0) &&
     decide (0 < f bd.x0 bd.y1) && decide (0 < f bd.x1 bd.y1)) ||
    (decide (f bd.x0 bd.y0 < 0) && decide (f bd.x1 bd.y0 < 0) &&
     decide (f bd.x0 bd.y1 < 0) && decide (f bd.x1 bd.y1 < 0)))

/-- Whether any edge of one flat ring intersects the query rectangle. -/
def ringHits (bd : Bounds) (flat : List ℚ) : Bool :=
  (closedEdges (toPoints flat)).any (edgeIntersectsBounds bd)

/-- Modelled from the spec: the per-polygon body of the missing kernel
`polygons_intersect_bounds` of `_algorithms/intersection` — for the polygon
occupying ring indices `[s, t)`, test every edge of every ring in range
against the rectangle, short-circuiting on the first hit. -/
def polyHits (bd : Bounds) (values : List ℚ) (offsets1 : List ℕ) (s t : ℕ) : Bool :=
  (ringsOf values ((offsets1.drop s).take (t + 1 - s))).any (ringHits bd)

/-- Modelled from the spec: kernel `polygons_intersect_bounds` — for each
requested polygon, identified by parallel `[start, stop)` ranges over ring
indices, write whether the query rectangle intersects any edge of any ring
in range. -/
def polygons_intersect_bounds (bd : Bounds) (values : List ℚ)
    (starts0 stops0 : List ℕ) (offsets1 : List ℕ) : List Bool :=
  List.zipWith (fun s t => polyHits bd values offsets1 s t) starts0 stops0

/-! ## Polygon element -/

/-- A single polygon: one flat coordinate buffer and one inner-offsets array
(in coordinate-pair units) delimiting its rings; ring 0 is the exterior
shell, the rest are holes. -/
structure Polygon where
  buffer_values : List ℚ
  buffer_inner_offsets : List ℕ
deriving DecidableEq

/-- `Polygon.length`: `compute_line_length(self.buffer_values,
self.buffer_inner_offsets)`. -/
noncomputable def Polygon.length (p : Polygon) : ℝ :=
  compute_line_length p.buffer_values p.buffer_inner_offsets

/-- `Polygon.area`: `compute_area(self.buffer_values,
self.buffer_inner_offsets)`. -/
def Polygon.area (p : Polygon) : ℚ :=
  compute_area p.buffer_values p.buffer_inner_offsets

/-- `Polygon.intersects_bounds`: a single kernel call with
`start_offsets0 = [0]` and `stop_offsets0 = [len(offsets1) - 1]`, reading
the single boolean result. -/
def Polygon.intersects_bounds (p : Polygon) (bd : Bounds) : Bool :=
  (polygons_intersect_bounds bd p.buffer_values
    [0] [p.buffer_inner_offsets.length - 1] p.buffer_inner_offsets).headD false

/-! ## Polygon collection -/

/-- A collection of polygons: one shared flat coordinate buffer, one inner
offsets array (ring boundaries, concatenated across all polygons), one
outer offsets array (polygon boundaries into the inner offsets), and a
per-element null mask. -/
structure PolygonArray where
  buffer_values : List ℚ
  offsets1 : List ℕ
  offsets0 : List ℕ
  nulls : List Bool
deriving DecidableEq

/-- `buffer_offsets` of a two-level nested geometry array. -/
def PolygonArray.buffer_offsets (a : PolygonArray) : List ℕ × List ℕ :=
  (a.offsets0, a.offsets1)

/-- Number of polygons in the collection (`len(self)`). -/
def PolygonArray.numPolys (a : PolygonArray) : ℕ :=
  a.offsets0.length - 1

/-- The inner-offsets slice
`inner_offsets[outer_offsets[k] : outer_offsets[k+1] + 1]` describing the
rings of polygon `k` (with its closing fence entry). -/
def PolygonArray.innerOffsetsOf (a : PolygonArray) (k : ℕ) : List ℕ :=
  (a.offsets1.drop (a.offsets0.getD k 0)).take
    (a.offsets0.getD (k + 1) 0 + 1 - a.offsets0.getD k 0)

/-- Modelled from the spec: extraction of a single element from a collection
(`GeometryArray` indexing, absent from the shown module) — the element holds
a view of just its own coordinate range, with its ring offsets rebased to
start at that range. -/
def PolygonArray.getPolygon (a : PolygonArray) (k : ℕ) : Polygon :=
  { buffer_values :=
      ringSlice a.buffer_values
        (a.offsets1.getD (a.offsets0.getD k 0) 0)
        (a.offsets1.getD (a.offsets0.getD (k + 1) 0) 0)
    buffer_inner_offsets :=
      (a.innerOffsetsOf k).map
        (fun x => x - a.offsets1.getD (a.offsets0.getD k 0) 0) }

/-- Well-formedness of the CSR-style two-level layout: both offset arrays
are non-empty and non-decreasing, every outer offset indexes into the inner
offsets array, and the null mask has one bit per polygon. -/
def PolygonArray.Valid (a : PolygonArray) : Prop :=
  a.offsets0 ≠ [] ∧ a.offsets1 ≠ [] ∧
  a.offsets0.Pairwise (· ≤ ·) ∧ a.offsets1.Pairwise (· ≤ ·) ∧
  (∀ x ∈ a.offsets0, x < a.offsets1.length) ∧
  a.nulls.length = a.numPolys

instance (a : PolygonArray) : Decidable a.Valid := by
  unfold PolygonArray.Valid
  infer_instance

/-- Modelled from the spec: the Nested Mapping Driver
(`_geometry_map_nested2`, absent from the shown module) applied over a
collection — one result slot per polygon `k`; a null polygon yields the
missing-value sentinel (`none`, standing for the source's NaN), otherwise
the scalar kernel runs on `inner_offsets[outer_offsets[k] :
outer_offsets[k+1] + 1]` against the shared coordinate buffer. -/
def PolygonArray.mapNested2 {α : Type} (kernel : List ℚ → List ℕ → α)
    (a : PolygonArray) : List (Option α) :=
  (List.range a.numPolys).map (fun k =>
    if a.nulls.getD k false then none
    else some (kernel a.buffer_values (a.innerOffsetsOf k)))

/-- `PolygonArray.length`: the batched perimeter reduction. -/
noncomputable def PolygonArray.length (a : PolygonArray) : List (Option ℝ) :=
  PolygonArray.mapNested2 compute_line_length a

/-- `PolygonArray.area`: the batched area reduction. -/
def PolygonArray.area (a : PolygonArray) : List (Option ℚ) :=
  PolygonArray.mapNested2 compute_area a

/-- `PolygonArray.intersects_bounds`: `start_offsets0 = offsets0[:-1]`,
`stop_offsets0 = offsets0[1:]`, optionally fancy-indexed by `inds`, then one
batched kernel call. -/
def PolygonArray.intersects_bounds (a : PolygonArray) (bd : Bounds)
    (inds : Option (List ℕ)) : List Bool :=
  let starts0 := a.offsets0.dropLast
  let stops0 := a.offsets0.tail
  match inds with
  | none => polygons_intersect_bounds bd a.buffer_values starts0 stops0 a.offsets1
  | some is =>
      polygons_intersect_bounds bd a.buffer_values
        (is.map (fun i => starts0.getD i 0))
        (is.map (fun i => stops0.getD i 0)) a.offsets1

/-! ## Construction from nested coordinate lists and from external shapes -/

/-- Cumulative coordinate-pair offsets of a nested list of flat rings. -/
def offsetsOfRings (rings : List (List ℚ)) : List ℕ :=
  rings.scanl (fun acc r => acc + r.length / 2) 0

/-- Modelled from the spec: the raw `Geometry` constructor over a nested
list of flat coordinate sequences (base-class code absent from the shown
module) — concatenate the rings into one flat buffer and record cumulative
pair offsets. -/
def Polygon.fromCoords (rings : List (List ℚ)) : Polygon :=
  { buffer_values := rings.flatten
    buffer_inner_offsets := offsetsOfRings rings }

/-- External (shapely) geometry values, as consumed by
`_shapely_to_coordinates`. -/
inductive SgShape where
  | point (x y : ℚ)
  | lineString (coords : List (ℚ × ℚ))
  | polygon (exterior : List (ℚ × ℚ)) (interiors : List (List (ℚ × ℚ)))
deriving DecidableEq

/-- `type(shape).__name__` of an external shape value. -/
def SgShape.typeName : SgShape → String
  | .point _ _ => "Point"
  | .lineString _ => "LineString"
  | .polygon _ _ => "Polygon"

/-- Whether an external shape is a polygon (`isinstance(shape, sg.Polygon)`). -/
def SgShape.isPolygon : SgShape → Bool
  | .polygon _ _ => true
  | _ => false

/-- The error text raised for a non-polygon input, naming the received type. -/
def invalidTypeMsg (typ : String) : String :=
  "Received invalid value of type " ++ typ ++ ". Must be an instance of Polygon"

/-- Signed shoelace area of a ring of points. -/
def signedAreaPts (pts : List (ℚ × ℚ)) : ℚ :=
  shoelaceSum pts / 2

/-- Modelled from the spec: one ring of `shapely.geometry.polygon.orient` —
force the ring counter-clockwise (`ccw = true`, for exterior shells) or
clockwise (`ccw = false`, for holes) by a signed-area computation plus
conditional reversal. -/
def orientRing (ccw : Bool) (pts : List (ℚ × ℚ)) : List (ℚ × ℚ) :=
  if ccw then (if signedAreaPts pts < 0 then pts.reverse else pts)
  else (if 0 < signedAreaPts pts then pts.reverse else pts)

/-- Flatten a ring of points into interleaved coordinates
(`np.asarray(ring.ctypes)`). -/
def flattenPts (pts : List (ℚ × ℚ)) : List ℚ :=
  (pts.map (fun p => [p.1, p.2])).flatten

/-- `Polygon._shapely_to_coordinates`: for a polygon, optionally re-orient,
then return the list of flat ring coordinate arrays (exterior first); any
other shape raises a value error naming the received type before any buffer
is built. -/
def Polygon.shapely_to_coordinates (shape : SgShape) (orient : Bool) :
    Except String (List (List ℚ)) :=
  match shape with
  | .polygon ext ints =>
      if orient then
        Except.ok (flattenPts (orientRing true ext) ::
          ints.map (fun r => flattenPts (orientRing false r)))
      else
        Except.ok (flattenPts ext :: ints.map flattenPts)
  | s => Except.error (invalidTypeMsg s.typeName)

/-- `Polygon.from_shapely`: convert the shape to nested coordinates and run
the raw constructor on them. -/
def Polygon.from_shapely (shape : SgShape) (orient : Bool) :
    Except String Polygon :=
  (Polygon.shapely_to_coordinates shape orient).map Polygon.fromCoords

/-- `Polygon.to_shapely`: reshape each flat ring of the element's data into
a 2-D point array and rebuild an external polygon with ring 0 as shell and
the rest as holes (`rings[0]` fails on an element with no rings, modelled by
`none`). -/
def Polygon.to_shapely (p : Polygon) : Option SgShape :=
  match (ringsOf p.buffer_values p.buffer_inner_offsets).map toPoints with
  | [] => none
  | ext :: holes => some (SgShape.polygon ext holes)

/-! ## Boundary views (MultiLine shares the physical layout) -/

/-- Modelled from the spec: the `MultiLine` element of the missing
`multiline` module — a distinct named view over the identical ragged
layout. -/
structure MultiLine where
  buffer_values : List ℚ
  buffer_inner_offsets : List ℕ
deriving DecidableEq

/-- Modelled from the spec: `MultiLine.length` runs the same
`compute_line_length` kernel over the shared layout. -/
noncomputable def MultiLine.length (m : MultiLine) : ℝ :=
  compute_line_length m.buffer_values m.buffer_inner_offsets

/-- Modelled from the spec: the `MultiLineArray` collection of the missing
`multiline` module — identical physical layout to `PolygonArray`. -/
structure MultiLineArray where
  buffer_values : List ℚ
  offsets1 : List ℕ
  offsets0 : List ℕ
  nulls : List Bool
deriving DecidableEq

/-- `Polygon.boundary`: `MultiLine(self.data)` — the same ragged data viewed
as a multi-line. -/
def Polygon.boundary (p : Polygon) : MultiLine :=
  { buffer_values := p.buffer_values
    buffer_inner_offsets := p.buffer_inner_offsets }

/-- `PolygonArray.boundary`: `MultiLineArray(self.data)`. -/
def PolygonArray.boundary (a : PolygonArray) : MultiLineArray :=
  { buffer_values := a.buffer_values
    offsets1 := a.offsets1
    offsets0 := a.offsets0
    nulls := a.nulls }

/-! ## Dtype factory -/

/-- The extension array types the dtype factory can name. -/
inductive GeometryArrayType where
  | polygonArray
deriving DecidableEq

/-- `PolygonDtype.construct_array_type(*args)`: rejects any argument with a
not-implemented error, otherwise yields the `PolygonArray` type. -/
def PolygonDtype.construct_array_type (args : List String) :
    Except String GeometryArrayType :=
  if args.length > 0 then
    Except.error "construct_array_type does not support arguments"
  else Except.ok GeometryArrayType.polygonArray

/-! ## Concrete fixtures -/

/-- The 2x2 square ring of the spec's testable properties, flat coords. -/
def exSquare : List ℚ := [0, 0, 0, 2, 2, 2, 2, 0, 0, 0]

/-- A properly nested unit-square hole ring inside `exSquare`. -/
def exHole : List ℚ :=
  [1/2, 1/2, 3/2, 1/2, 3/2, 3/2, 1/2, 3/2, 1/2, 1/2]

/-- A two-polygon collection: the square with its hole, then the square. -/
def exArr : PolygonArray :=
  { buffer_values := exSquare ++ exHole ++ exSquare
    offsets1 := [0, 5, 10, 15]
    offsets0 := [0, 2, 3]
    nulls := [false, false] }

/-- The same collection with a null entry at index 0. -/
def exArrNull : PolygonArray :=
  { exArr with nulls := [true, false] }

/-- A concrete query rectangle. -/
def exBounds : Bounds := { x0 := 0, y0 := 0, x1 := 1, y1 := 1 }

/-! ## Helper lemmas: slicing and offset bookkeeping -/

theorem ringSlice_ringSlice (V : List ℚ) (b e u v : ℕ)
    (hbu : b ≤ u) (hbv : b ≤ v) (hve : v ≤ e) :
    ringSlice (ringSlice V b e) (u - b) (v - b) = ringSlice V u v := by
  unfold ringSlice
  rw [List.drop_take, List.drop_drop, List.take_take]
  have h1 : 2 * b + 2 * (u - b) = 2 * u := by omega
  rw [h1]
  congr 1
  omega

theorem getD_mem (l : List ℕ) (i : ℕ) (hi : i < l.length) : l.getD i 0 ∈ l := by
  rw [List.getD_eq_getElem?_getD, List.getElem?_eq_getElem hi]
  exact List.getElem_mem hi

theorem pairwise_le_getD (l : List ℕ) (hl : l.Pairwise (· ≤ ·)) (i j : ℕ)
    (hij : i ≤ j) (hj : j < l.length) : l.getD i 0 ≤ l.getD j 0 := by
  rcases Nat.eq_or_lt_of_le hij with h | h
  · subst h; exact le_refl _
  · have hi : i < l.length := lt_trans h hj
    rw [List.getD_eq_getElem?_getD, List.getD_eq_getElem?_getD,
        List.getElem?_eq_getElem hi, List.getElem?_eq_getElem hj]
    exact (List.pairwise_iff_getElem.mp hl) i j hi hj h

theorem ringsOf_map_sub (V : List ℚ) (off : List ℕ) (b e : ℕ)
    (h : ∀ x ∈ off, b ≤ x ∧ x ≤ e) :
    ringsOf (ringSlice V b e) (off.map (fun x => x - b)) = ringsOf V off := by
  unfold ringsOf
  rw [← List.map_tail, List.zip_map, List.map_map]
  refine List.map_congr_left ?_
  intro p hp
  obtain ⟨h1, h2⟩ := List.of_mem_zip hp
  obtain ⟨hb1, he1⟩ := h p.1 h1
  obtain ⟨hb2, he2⟩ := h p.2 (List.mem_of_mem_tail h2)
  exact ringSlice_ringSlice V b e p.1 p.2 hb1 hb2 he2

theorem valid_offsets0_lt (a : PolygonArray) (hv : a.Valid) (k : ℕ)
    (hk : k ≤ a.numPolys) : a.offsets0.getD k 0 < a.offsets1.length := by
  obtain ⟨h0, _, _, _, hb, _⟩ := hv
  have hlen : 0 < a.offsets0.length := List.length_pos.mpr h0
  have hk' : k < a.offsets0.length := by
    unfold PolygonArray.numPolys at hk
    omega
  exact hb _ (getD_mem a.offsets0 k hk')

theorem valid_offsets0_le (a : PolygonArray) (hv : a.Valid) (i j : ℕ)
    (hij : i ≤ j) (hj : j ≤ a.numPolys) :
    a.offsets0.getD i 0 ≤ a.offsets0.getD j 0 := by
  obtain ⟨h0, _, hp, _, _, _⟩ := hv
  have hlen : 0 < a.offsets0.length := List.length_pos.mpr h0
  refine pairwise_le_getD a.offsets0 hp i j hij ?_
  unfold PolygonArray.numPolys at hj
  omega

theorem innerOffsetsOf_mem (a : PolygonArray) (hv : a.Valid) (k : ℕ)
    (hk : k < a.numPolys) :
    ∀ x ∈ a.innerOffsetsOf k,
      a.offsets1.getD (a.offsets0.getD k 0) 0 ≤ x ∧
      x ≤ a.offsets1.getD (a.offsets0.getD (k + 1) 0) 0 := by
  intro x hx
  set s := a.offsets0.getD k 0 with hs
  set t := a.offsets0.getD (k + 1) 0 with ht
  obtain ⟨i, hi⟩ := List.mem_iff_getElem?.mp hx
  unfold PolygonArray.innerOffsetsOf at hi
  rw [List.getElem?_take] at hi
  by_cases hin : i < t + 1 - s
  · rw [if_pos hin, List.getElem?_drop] at hi
    have hlt : s + i < a.offsets1.length := by
      rcases List.getElem?_eq_some_iff.mp hi with ⟨h, _⟩
      exact h
    have hx' : a.offsets1.getD (s + i) 0 = x := by
      rw [List.getD_eq_getElem?_getD, hi]; rfl
    have htlt : t < a.offsets1.length :=
      valid_offsets0_lt a hv (k + 1) (by omega)
    obtain ⟨_, _, _, hp1, _, _⟩ := hv
    constructor
    · rw [← hx']
      exact pairwise_le_getD a.offsets1 hp1 s (s + i) (by omega) hlt
    · rw [← hx']
      exact pairwise_le_getD a.offsets1 hp1 (s + i) t (by omega) htlt
  · rw [if_neg hin] at hi
    exact absurd hi (by simp)

theorem innerOffsetsOf_length (a : PolygonArray) (hv : a.Valid) (k : ℕ)
    (hk : k < a.numPolys) :
    (a.innerOffsetsOf k).length =
      a.offsets0.getD (k + 1) 0 + 1 - a.offsets0.getD k 0 := by
  have hslt : a.offsets0.getD k 0 < a.offsets1.length :=
    valid_offsets0_lt a hv k (by omega)
  have htlt : a.offsets0.getD (k + 1) 0 < a.offsets1.length :=
    valid_offsets0_lt a hv (k + 1) (by omega)
  have hst : a.offsets0.getD k 0 ≤ a.offsets0.getD (k + 1) 0 :=
    valid_offsets0_le a hv k (k + 1) (by omega) (by omega)
  unfold PolygonArray.innerOffsetsOf
  rw [List.length_take, List.length_drop]
  omega

/-- The central shift-invariance fact: extracting element `k` from a
collection (its own sliced buffer plus rebased ring offsets) addresses
exactly the same rings as the collection-level offsets for polygon `k`. -/
theorem ringsOf_getPolygon (a : PolygonArray) (hv : a.Valid) (k : ℕ)
    (hk : k < a.numPolys) :
    ringsOf (a.getPolygon k).buffer_values (a.getPolygon k).buffer_inner_offsets
      = ringsOf a.buffer_values (a.innerOffsetsOf k) := by
  unfold PolygonArray.getPolygon
  exact ringsOf_map_sub a.buffer_values (a.innerOffsetsOf k) _ _
    (innerOffsetsOf_mem a hv k hk)

theorem dropLast_getD (l : List ℕ) (i : ℕ) (hi : i < l.length - 1) :
    l.dropLast.getD i 0 = l.getD i 0 := by
  have h1 : i < l.dropLast.length := by rw [List.length_dropLast]; omega
  have h2 : i < l.length := by omega
  rw [List.getD_eq_getElem _ _ h1, List.getD_eq_getElem _ _ h2,
      List.getElem_dropLast]

theorem tail_getD (l : List ℕ) (i : ℕ) :
    l.tail.getD i 0 = l.getD (i + 1) 0 := by
  rw [List.getD_eq_getElem?_getD, List.getElem?_tail,
      ← List.getD_eq_getElem?_getD]

/-- The single-element bounds test on the extracted polygon `k` computes the
per-polygon body of the batched kernel at polygon `k`'s ring range. -/
theorem scalar_eq_polyHits (a : PolygonArray) (hv : a.Valid) (k : ℕ)
    (hk : k < a.numPolys) (bd : Bounds) :
    (a.getPolygon k).intersects_bounds bd =
      polyHits bd a.buffer_values a.offsets1
        (a.offsets0.getD k 0) (a.offsets0.getD (k + 1) 0) := by
  have hst : a.offsets0.getD k 0 ≤ a.offsets0.getD (k + 1) 0 :=
    valid_offsets0_le a hv k (k + 1) (by omega) (by omega)
  have hlen : (a.getPolygon k).buffer_inner_offsets.length =
      a.offsets0.getD (k + 1) 0 + 1 - a.offsets0.getD k 0 := by
    unfold PolygonArray.getPolygon
    rw [List.length_map]
    exact innerOffsetsOf_length a hv k hk
  have key : (a.getPolygon k).intersects_bounds bd =
      polyHits bd (a.getPolygon k).buffer_values
        (a.getPolygon k).buffer_inner_offsets 0
        ((a.getPolygon k).buffer_inner_offsets.length - 1) := rfl
  rw [key]
  unfold polyHits
  rw [List.drop_zero]
  have hL : (a.getPolygon k).buffer_inner_offsets.length - 1 + 1 - 0 =
      (a.getPolygon k).buffer_inner_offsets.length := by omega
  rw [hL, List.take_length, ringsOf_getPolygon a hv k hk]
  rfl

/-- Entry `k` of the full-collection batched bounds test. -/
theorem batch_entry_none (a : PolygonArray) (bd : Bounds) (k : ℕ)
    (hk : k < a.numPolys) :
    (a.intersects_bounds bd none)[k]? =
      some (polyHits bd a.buffer_values a.offsets1
        (a.offsets0.getD k 0) (a.offsets0.getD (k + 1) 0)) := by
  have hk0 : k < a.offsets0.length - 1 := hk
  have hd : k < a.offsets0.dropLast.length := by
    rw [List.length_dropLast]; omega
  have ht : k < a.offsets0.tail.length := by
    rw [List.length_tail]; omega
  unfold PolygonArray.intersects_bounds polygons_intersect_bounds
  rw [List.getElem?_zipWith, List.getElem?_eq_getElem hd,
      List.getElem?_eq_getElem ht]
  have h1 : a.offsets0.dropLast[k] = a.offsets0.getD k 0 := by
    rw [← List.getD_eq_getElem _ _ hd, dropLast_getD _ _ hk0]
  have h2 : a.offsets0.tail[k] = a.offsets0.getD (k + 1) 0 := by
    rw [← List.getD_eq_getElem _ _ ht, tail_getD]
  rw [h1, h2]

/-- Entry `j` of the index-subsetted batched bounds test. -/
theorem batch_entry_some (a : PolygonArray) (bd : Bounds) (is : List ℕ)
    (j : ℕ) (hj : j < is.length) (hjn : is.getD j 0 < a.numPolys) :
    (a.intersects_bounds bd (some is))[j]? =
      some (polyHits bd a.buffer_values a.offsets1
        (a.offsets0.getD (is.getD j 0) 0)
        (a.offsets0.getD (is.getD j 0 + 1) 0)) := by
  unfold PolygonArray.intersects_bounds polygons_intersect_bounds
  rw [List.getElem?_zipWith, List.getElem?_map, List.getElem?_map,
      List.getElem?_eq_getElem hj]
  have hget : is[j] = is.getD j 0 := (List.getD_eq_getElem _ _ hj).symm
  rw [hget]
  have h1 : a.offsets0.dropLast.getD (is.getD j 0) 0 =
      a.offsets0.getD (is.getD j 0) 0 := dropLast_getD _ _ hjn
  have h2 : a.offsets0.tail.getD (is.getD j 0) 0 =
      a.offsets0.getD (is.getD j 0 + 1) 0 := tail_getD _ _
  simp only [Option.map_some']
  rw [h1, h2]

/-- The scalar perimeter of the extracted element `k` equals the kernel run
on polygon `k`'s ring range of the shared collection buffers. -/
theorem length_getPolygon (a : PolygonArray) (hv : a.Valid) (k : ℕ)
    (hk : k < a.numPolys) :
    (a.getPolygon k).length =
      compute_line_length a.buffer_values (a.innerOffsetsOf k) := by
  unfold Polygon.length compute_line_length
  rw [ringsOf_getPolygon a hv k hk]

/-- The scalar area of the extracted element `k` equals the kernel run on
polygon `k`'s ring range of the shared collection buffers. -/
theorem area_getPolygon (a : PolygonArray) (hv : a.Valid) (k : ℕ)
    (hk : k < a.numPolys) :
    (a.getPolygon k).area =
      compute_area a.buffer_values (a.innerOffsetsOf k) := by
  unfold Polygon.area compute_area
  rw [ringsOf_getPolygon a hv k hk]

/-! ## Construction lemmas -/

theorem ringsOf_cons_cons (V : List ℚ) (a b : ℕ) (rest : List ℕ) :
    ringsOf V (a :: b :: rest) = ringSlice V a b :: ringsOf V (b :: rest) := rfl

theorem ringSlice_append (V0 r J : List ℚ) (c : ℕ)
    (h0 : V0.length = 2 * c) (hr : 2 ∣ r.length) :
    ringSlice (V0 ++ (r ++ J)) c (c + r.length / 2) = r := by
  unfold ringSlice
  have h1 : 2 * (c + r.length / 2) - 2 * c = r.length := by omega
  rw [h1, ← h0, List.drop_left]
  exact List.take_left r J

theorem ringsOf_flatten_aux (rings : List (List ℚ)) :
    ∀ (V0 : List ℚ) (c : ℕ), V0.length = 2 * c →
      (∀ r ∈ rings, 2 ∣ r.length) →
      ringsOf (V0 ++ rings.flatten)
        (rings.scanl (fun acc r => acc + r.length / 2) c) = rings := by
  induction rings with
  | nil => intro V0 c _ _; rfl
  | cons r rest ih =>
    intro V0 c h0 hev
    have hr : 2 ∣ r.length := hev r (List.mem_cons_self r rest)
    have hrest : ∀ x ∈ rest, 2 ∣ x.length :=
      fun x hx => hev x (List.mem_cons_of_mem r hx)
    rw [List.scanl_cons, List.flatten_cons]
    have hS : ∃ tl, List.scanl (fun acc r => acc + r.length / 2)
        (c + r.length / 2) rest = (c + r.length / 2) :: tl := by
      cases rest with
      | nil => exact ⟨[], rfl⟩
      | cons r2 rest2 => exact ⟨_, List.scanl_cons⟩
    obtain ⟨tl, htl⟩ := hS
    rw [htl]
    show ringsOf (V0 ++ (r ++ rest.flatten))
        (c :: (c + r.length / 2) :: tl) = r :: rest
    rw [ringsOf_cons_cons]
    congr 1
    · exact ringSlice_append V0 r rest.flatten c h0 hr
    · rw [← htl, show V0 ++ (r ++ rest.flatten) = (V0 ++ r) ++ rest.flatten
        from (List.append_assoc V0 r rest.flatten).symm]
      exact ih (V0 ++ r) (c + r.length / 2)
        (by rw [List.length_append]; omega) hrest

/-- Rebuilding the ragged layout from a nested list of even-length flat
rings and then re-extracting the rings is the identity. -/
theorem ringsOf_fromCoords (rings : List (List ℚ))
    (hev : ∀ r ∈ rings, 2 ∣ r.length) :
    ringsOf (Polygon.fromCoords rings).buffer_values
      (Polygon.fromCoords rings).buffer_inner_offsets = rings := by
  unfold Polygon.fromCoords offsetsOfRings
  exact ringsOf_flatten_aux rings [] 0 rfl hev

theorem flattenPts_cons (p : ℚ × ℚ) (pts : List (ℚ × ℚ)) :
    flattenPts (p :: pts) = p.1 :: p.2 :: flattenPts pts := rfl

theorem flattenPts_length (pts : List (ℚ × ℚ)) :
    (flattenPts pts).length = 2 * pts.length := by
  induction pts with
  | nil => rfl
  | cons p rest ih => rw [flattenPts_cons]; simp [ih]; omega

theorem toPoints_flattenPts (pts : List (ℚ × ℚ)) :
    toPoints (flattenPts pts) = pts := by
  induction pts with
  | nil => rfl
  | cons p rest ih =>
    rw [flattenPts_cons]
    show (p.1, p.2) :: toPoints (flattenPts rest) = p :: rest
    rw [ih]

theorem to_shapely_fromCoords (e : List (ℚ × ℚ)) (l : List (List (ℚ × ℚ))) :
    (Polygon.fromCoords (flattenPts e :: l.map flattenPts)).to_shapely =
      some (SgShape.polygon e l) := by
  unfold Polygon.to_shapely
  rw [ringsOf_fromCoords]
  · rw [List.map_cons, toPoints_flattenPts, List.map_map]
    have hl : l.map (toPoints ∘ flattenPts) = l := by
      have h1 : l.map (toPoints ∘ flattenPts) = l.map id :=
        List.map_congr_left (fun x _ => toPoints_flattenPts x)
      rw [h1, List.map_id]
    rw [hl]
  · intro r hr
    rcases List.mem_cons.mp hr with h | h
    · rw [h, flattenPts_length]; exact ⟨e.length, rfl⟩
    · obtain ⟨pts, _, hpts⟩ := List.mem_map.mp h
      rw [← hpts, flattenPts_length]; exact ⟨pts.length, rfl⟩

/-! ## The claims -/

/-- Claim C1: for every valid polygon collection, bounds rectangle, and requested
subset of polygon indices, each entry of the batched
`PolygonArray.intersects_bounds` result equals the scalar
`Polygon.intersects_bounds` result of testing that polygon alone; likewise
entry by entry for the full-collection call. -/
theorem claim_C1 (a : PolygonArray) (hv : a.Valid) (bd : Bounds)
    (is : List ℕ) (his : ∀ i ∈ is, i < a.numPolys) (j : ℕ)
    (hj : j < is.length) :
    (a.intersects_bounds bd (some is))[j]? =
      some ((a.getPolygon (is.getD j 0)).intersects_bounds bd) ∧
    ∀ k, k < a.numPolys →
      (a.intersects_bounds bd none)[k]? =
        some ((a.getPolygon k).intersects_bounds bd) := by
  constructor
  · have hjn : is.getD j 0 < a.numPolys := by
      refine his _ ?_
      rw [List.getD_eq_getElem _ _ hj]
      exact List.getElem_mem hj
    rw [batch_entry_some a bd is j hj hjn,
        scalar_eq_polyHits a hv (is.getD j 0) hjn bd]
  · intro k hk
    rw [batch_entry_none a bd k hk, scalar_eq_polyHits a hv k hk bd]

theorem claim_C1_witness :
    (exArr.Valid ∧ (∀ i ∈ ([1, 0] : List ℕ), i < exArr.numPolys) ∧
      0 < ([1, 0] : List ℕ).length) ∧
    ((exArr.intersects_bounds exBounds (some [1, 0]))[0]? =
        some ((exArr.getPolygon (([1, 0] : List ℕ).getD 0 0)).intersects_bounds
          exBounds) ∧
      ∀ k, k < exArr.numPolys →
        (exArr.intersects_bounds exBounds none)[k]? =
          some ((exArr.getPolygon k).intersects_bounds exBounds)) :=
  ⟨⟨by decide, by decide, by decide⟩,
    claim_C1 exArr (by decide) exBounds [1, 0] (by decide) 0 (by decide)⟩

/-- Claim C2: in a valid collection with a null entry at index `i`, the batched
`length` and `area` reductions produce the missing-value sentinel at
position `i`, fill every position of a full-size result array (the batch is
never aborted), and every non-null position `k` holds exactly the scalar
kernel value for polygon `k`'s ring range. -/
theorem claim_C2 (a : PolygonArray) (hv : a.Valid) (i : ℕ)
    (hi : i < a.numPolys) (hnull : a.nulls.getD i false = true) :
    a.length.length = a.numPolys ∧ a.area.length = a.numPolys ∧
    a.length[i]? = some none ∧ a.area[i]? = some none ∧
    ∀ k, k < a.numPolys → a.nulls.getD k false = false →
      a.length[k]? = some (some ((a.getPolygon k).length)) ∧
      a.area[k]? = some (some ((a.getPolygon k).area)) := by
  have hnull' : a.nulls[i]?.getD false = true := by
    rw [← List.getD_eq_getElem?_getD]; exact hnull
  unfold PolygonArray.length PolygonArray.area PolygonArray.mapNested2
  refine ⟨by simp, by simp, ?_, ?_, ?_⟩
  · rw [List.getElem?_map, List.getElem?_range hi]
    simp [hnull, hnull']
  · rw [List.getElem?_map, List.getElem?_range hi]
    simp [hnull, hnull']
  · intro k hk hk0
    constructor
    · rw [List.getElem?_map, List.getElem?_range hk]
      simp only [Option.map_some', hk0, Bool.false_eq_true, if_false]
      rw [length_getPolygon a hv k hk]
    · rw [List.getElem?_map, List.getElem?_range hk]
      simp only [Option.map_some', hk0, Bool.false_eq_true, if_false]
      rw [area_getPolygon a hv k hk]

theorem claim_C2_witness :
    (exArrNull.Valid ∧ 0 < exArrNull.numPolys ∧
      exArrNull.nulls.getD 0 false = true) ∧
    (exArrNull.length.length = exArrNull.numPolys ∧
      exArrNull.area.length = exArrNull.numPolys ∧
      exArrNull.length[0]? = some none ∧ exArrNull.area[0]? = some none ∧
      ∀ k, k < exArrNull.numPolys → exArrNull.nulls.getD k false = false →
        exArrNull.length[k]? =
          some (some ((exArrNull.getPolygon k).length)) ∧
        exArrNull.area[k]? =
          some (some ((exArrNull.getPolygon k).area))) :=
  ⟨⟨by decide, by decide, by decide⟩,
    claim_C2 exArrNull (by decide) 0 (by decide) (by decide)⟩

/-- Claim C4: for every collection, bounds rectangle and index list, the
subsetted batch result has one entry per requested index (not per polygon
of the collection), each equal to the full-collection result at that index,
and the full-collection call yields one boolean per polygon. -/
theorem claim_C4 (a : PolygonArray) (bd : Bounds) (is : List ℕ)
    (his : ∀ i ∈ is, i < a.numPolys) :
    (a.intersects_bounds bd (some is)).length = is.length ∧
    (a.intersects_bounds bd none).length = a.numPolys ∧
    ∀ j, j < is.length →
      (a.intersects_bounds bd (some is))[j]? =
        (a.intersects_bounds bd none)[is.getD j 0]? := by
  refine ⟨?_, ?_, ?_⟩
  · unfold PolygonArray.intersects_bounds polygons_intersect_bounds
    simp
  · unfold PolygonArray.intersects_bounds polygons_intersect_bounds
      PolygonArray.numPolys
    simp [List.length_zipWith]
  · intro j hj
    have hjn : is.getD j 0 < a.numPolys := by
      refine his _ ?_
      rw [List.getD_eq_getElem _ _ hj]
      exact List.getElem_mem hj
    rw [batch_entry_some a bd is j hj hjn, batch_entry_none a bd _ hjn]

/-- Claim C3: the area of the 2x2 square polygon with no holes is exactly 4, and
with a properly nested unit-square hole ring added it is exactly 3 — the
hole's area is subtracted from the exterior shoelace area. -/
theorem claim_C3 :
    (Polygon.fromCoords [exSquare]).area = 4 ∧
    (Polygon.fromCoords [exSquare, exHole]).area = 3 := by
  have hsq : closedEdges (toPoints exSquare) =
      [((0, 0), (0, 2)), ((0, 2), (2, 2)), ((2, 2), (2, 0)),
       ((2, 0), (0, 0)), ((0, 0), (0, 0))] := rfl
  have hh : closedEdges (toPoints exHole) =
      [((1/2, 1/2), (3/2, 1/2)), ((3/2, 1/2), (3/2, 3/2)),
       ((3/2, 3/2), (1/2, 3/2)), ((1/2, 3/2), (1/2, 1/2)),
       ((1/2, 1/2), (1/2, 1/2))] := rfl
  constructor
  · unfold Polygon.area compute_area
    rw [ringsOf_fromCoords [exSquare] (by decide)]
    show |ringSignedArea exSquare| -
        (([] : List (List ℚ)).map (fun h => |ringSignedArea h|)).sum = 4
    simp only [List.map_nil, List.sum_nil, sub_zero]
    unfold ringSignedArea
    rw [if_neg (by decide)]
    unfold shoelaceSum
    rw [hsq]
    norm_num
  · unfold Polygon.area compute_area
    rw [ringsOf_fromCoords [exSquare, exHole] (by decide)]
    show |ringSignedArea exSquare| -
        ([exHole].map (fun h => |ringSignedArea h|)).sum = 3
    simp only [List.map_cons, List.map_nil, List.sum_cons, List.sum_nil,
      add_zero]
    unfold ringSignedArea
    rw [if_neg (by decide), if_neg (by decide)]
    unfold shoelaceSum
    rw [hsq, hh]
    norm_num

/-- Claim C5: a ring with fewer than 3 points contributes zero to the length and
area kernels, and a polygon containing such a degenerate ring still yields
the same finite, deterministic length and area as without it — no error is
raised. -/
theorem claim_C5 :
    (∀ flat : List ℚ, flat.length < 6 →
      ringPerimeter flat = 0 ∧ ringSignedArea flat = 0) ∧
    ∀ (rings : List (List ℚ)) (deg : List ℚ),
      (∀ r ∈ rings, 2 ∣ r.length) → 2 ∣ deg.length → deg.length < 6 →
      (Polygon.fromCoords (rings ++ [deg])).length =
        (Polygon.fromCoords rings).length ∧
      (Polygon.fromCoords (rings ++ [deg])).area =
        (Polygon.fromCoords rings).area := by
  constructor
  · intro flat h
    constructor
    · unfold ringPerimeter; rw [if_pos h]
    · unfold ringSignedArea; rw [if_pos h]
  · intro rings deg hev hdev hdeg
    have hev' : ∀ r ∈ rings ++ [deg], 2 ∣ r.length := by
      intro r hr
      rcases List.mem_append.mp hr with h | h
      · exact hev r h
      · rw [List.mem_singleton.mp h]; exact hdev
    have hperim : ringPerimeter deg = 0 := by
      unfold ringPerimeter; rw [if_pos hdeg]
    have harea : ringSignedArea deg = 0 := by
      unfold ringSignedArea; rw [if_pos hdeg]
    constructor
    · unfold Polygon.length compute_line_length
      rw [ringsOf_fromCoords _ hev', ringsOf_fromCoords _ hev,
          List.map_append, List.sum_append]
      simp [hperim]
    · unfold Polygon.area compute_area
      rw [ringsOf_fromCoords _ hev', ringsOf_fromCoords _ hev]
      cases rings with
      | nil => simp [harea]
      | cons ext rs =>
        show |ringSignedArea ext| -
            ((rs ++ [deg]).map (fun h => |ringSignedArea h|)).sum =
          |ringSignedArea ext| - (rs.map (fun h => |ringSignedArea h|)).sum
        rw [List.map_append, List.sum_append]
        simp [harea]

theorem claim_C5_witness :
    (([] : List ℚ).length < 6 ∧ (∀ r ∈ [exSquare], 2 ∣ r.length) ∧
      2 ∣ ([1, 1, 3, 3] : List ℚ).length ∧
      ([1, 1, 3, 3] : List ℚ).length < 6) ∧
    (ringPerimeter [] = 0 ∧ ringSignedArea [] = 0) ∧
    ((Polygon.fromCoords ([exSquare] ++ [[1, 1, 3, 3]])).length =
        (Polygon.fromCoords [exSquare]).length ∧
      (Polygon.fromCoords ([exSquare] ++ [[1, 1, 3, 3]])).area =
        (Polygon.fromCoords [exSquare]).area) :=
  ⟨⟨by decide, by decide, by decide, by decide⟩,
    claim_C5.1 [] (by decide),
    claim_C5.2 [exSquare] [1, 1, 3, 3] (by decide) (by decide) (by decide)⟩

/-- Claim C6: converting an external polygon shape to a `Polygon` with
`from_shapely` and back with `to_shapely` reproduces the same ring point
sets — the same exterior and the same holes in order — where each ring is
returned either exactly as given or (when `orient=True` re-oriented it)
with its vertex order reversed. -/
theorem claim_C6 (ext : List (ℚ × ℚ)) (ints : List (List (ℚ × ℚ)))
    (orient : Bool) :
    ∃ ext' ints',
      (Polygon.from_shapely (SgShape.polygon ext ints) orient).map
          Polygon.to_shapely = Except.ok (some (SgShape.polygon ext' ints')) ∧
      (ext' = ext ∨ ext' = ext.reverse) ∧
      ints'.length = ints.length ∧
      ∀ j : ℕ, ints'.getD j [] = ints.getD j [] ∨
        ints'.getD j [] = (ints.getD j []).reverse := by
  cases orient with
  | false =>
    refine ⟨ext, ints, ?_, Or.inl rfl, rfl, fun j => Or.inl rfl⟩
    show Except.map Polygon.to_shapely
        (Except.ok (Polygon.fromCoords (flattenPts ext :: ints.map flattenPts)))
      = Except.ok (some (SgShape.polygon ext ints))
    rw [Except.map, to_shapely_fromCoords]
  | true =>
    refine ⟨orientRing true ext, ints.map (orientRing false), ?_, ?_, by simp, ?_⟩
    · show Except.map Polygon.to_shapely
          (Except.ok (Polygon.fromCoords (flattenPts (orientRing true ext) ::
            ints.map (fun r => flattenPts (orientRing false r)))))
        = Except.ok (some (SgShape.polygon (orientRing true ext)
            (ints.map (orientRing false))))
      have hm : ints.map (fun r => flattenPts (orientRing false r)) =
          (ints.map (orientRing false)).map flattenPts := by
        rw [List.map_map]; rfl
      rw [hm, Except.map, to_shapely_fromCoords]
    · unfold orientRing
      by_cases h : signedAreaPts ext < 0
      · simp [h]
      · simp [h]
    · intro j
      by_cases hj : j < ints.length
      · have hj' : j < (ints.map (orientRing false)).length := by
          rw [List.length_map]; exact hj
        rw [List.getD_eq_getElem _ _ hj', List.getD_eq_getElem _ _ hj,
            List.getElem_map]
        unfold orientRing
        by_cases h : 0 < signedAreaPts ints[j]
        · simp [h]
        · simp [h]
      · rw [List.getD_eq_default _ _ (by rw [List.length_map]; omega),
            List.getD_eq_default _ _ (by omega)]
        exact Or.inl rfl

theorem claim_C4_witness :
    (∀ i ∈ ([1, 0, 1] : List ℕ), i < exArr.numPolys) ∧
    ((exArr.intersects_bounds exBounds (some [1, 0, 1])).length =
        ([1, 0, 1] : List ℕ).length ∧
      (exArr.intersects_bounds exBounds none).length = exArr.numPolys ∧
      ∀ j, j < ([1, 0, 1] : List ℕ).length →
        (exArr.intersects_bounds exBounds (some [1, 0, 1]))[j]? =
          (exArr.intersects_bounds exBounds none)[([1, 0, 1] : List ℕ).getD j 0]?) :=
  ⟨by decide, claim_C4 exArr exBounds [1, 0, 1] (by decide)⟩

/-- Claim C7: the length of the 2x2 square polygon with no holes is exactly 8 —
the perimeter sums Euclidean distances between consecutive points including
the implicit closing edge — and every ring contributes non-negatively. -/
theorem claim_C7 :
    (Polygon.fromCoords [exSquare]).length = 8 ∧
    ∀ flat : List ℚ, 0 ≤ ringPerimeter flat := by
  constructor
  · unfold Polygon.length compute_line_length
    rw [ringsOf_fromCoords [exSquare] (by decide)]
    simp only [List.map_cons, List.map_nil, List.sum_cons, List.sum_nil,
      add_zero]
    unfold ringPerimeter
    rw [if_neg (by decide)]
    rw [show closedEdges (toPoints exSquare) =
        [((0, 0), (0, 2)), ((0, 2), (2, 2)), ((2, 2), (2, 0)),
         ((2, 0), (0, 0)), ((0, 0), (0, 0))] from rfl]
    simp only [List.map_cons, List.map_nil, List.sum_cons, List.sum_nil,
      add_zero]
    unfold distR
    have h4 : Real.sqrt ((4 : ℚ) : ℝ) = 2 := by
      rw [show (((4 : ℚ)) : ℝ) = 2 ^ 2 by norm_num]
      exact Real.sqrt_sq (by norm_num)
    have h0 : Real.sqrt ((0 : ℚ) : ℝ) = 0 := by
      rw [show (((0 : ℚ)) : ℝ) = 0 by norm_num]
      exact Real.sqrt_zero
    rw [show ((0 : ℚ) - 0) ^ 2 + ((2 : ℚ) - 0) ^ 2 = 4 by norm_num,
        show ((2 : ℚ) - 0) ^ 2 + ((2 : ℚ) - 2) ^ 2 = 4 by norm_num,
        show ((2 : ℚ) - 2) ^ 2 + ((0 : ℚ) - 2) ^ 2 = 4 by norm_num,
        show ((0 : ℚ) - 2) ^ 2 + ((0 : ℚ) - 0) ^ 2 = 4 by norm_num,
        show ((0 : ℚ) - 0) ^ 2 + ((0 : ℚ) - 0) ^ 2 = 0 by norm_num,
        h4, h0]
    norm_num
  · intro flat
    unfold ringPerimeter
    split
    · exact le_refl 0
    · refine List.sum_nonneg ?_
      intro x hx
      obtain ⟨e, _, he⟩ := List.mem_map.mp hx
      rw [← he]
      exact Real.sqrt_nonneg _

/-- Claim C8: converting any non-polygon external shape fails fast with the value
error naming the received type; no polygon value is ever produced. -/
theorem claim_C8 (s : SgShape) (orient : Bool) (h : s.isPolygon = false) :
    Polygon.shapely_to_coordinates s orient =
      Except.error (invalidTypeMsg s.typeName) ∧
    Polygon.from_shapely s orient =
      Except.error (invalidTypeMsg s.typeName) := by
  cases s with
  | point x y => exact ⟨rfl, rfl⟩
  | lineString c => exact ⟨rfl, rfl⟩
  | polygon e i => exact absurd h (by simp [SgShape.isPolygon])

theorem claim_C8_witness :
    (SgShape.point 1 2).isPolygon = false ∧
    (Polygon.shapely_to_coordinates (SgShape.point 1 2) true =
        Except.error (invalidTypeMsg (SgShape.point 1 2).typeName) ∧
      Polygon.from_shapely (SgShape.point 1 2) true =
        Except.error (invalidTypeMsg (SgShape.point 1 2).typeName)) :=
  ⟨by decide, claim_C8 (SgShape.point 1 2) true (by decide)⟩

/-- Claim C9: the dtype factory `construct_array_type` fails fast on any
non-empty argument list and returns the `PolygonArray` type when invoked
with no arguments. -/
theorem claim_C9 :
    (∀ args : List String, args ≠ [] →
      PolygonDtype.construct_array_type args =
        Except.error "construct_array_type does not support arguments") ∧
    PolygonDtype.construct_array_type [] =
      Except.ok GeometryArrayType.polygonArray := by
  constructor
  · intro args h
    unfold PolygonDtype.construct_array_type
    rw [if_pos (List.length_pos.mpr h)]
  · rfl

theorem claim_C9_witness :
    (["unexpected"] : List String) ≠ [] ∧
    PolygonDtype.construct_array_type ["unexpected"] =
      Except.error "construct_array_type does not support arguments" :=
  ⟨by decide, claim_C9.1 ["unexpected"] (by decide)⟩

/-- Claim C10: `boundary` returns a multi-line view over exactly the same ragged
data — identical coordinate buffer and ring offsets, for both the element
and the collection — and consequently the boundary's total line length
equals the polygon's length. -/
theorem claim_C10 (p : Polygon) (a : PolygonArray) :
    p.boundary.buffer_values = p.buffer_values ∧
    p.boundary.buffer_inner_offsets = p.buffer_inner_offsets ∧
    p.boundary.length = p.length ∧
    a.boundary.buffer_values = a.buffer_values ∧
    a.boundary.offsets1 = a.offsets1 ∧
    a.boundary.offsets0 = a.offsets0 ∧
    a.boundary.nulls = a.nulls :=
  ⟨rfl, rfl, rfl, rfl, rfl, rfl, rfl⟩

end SpatialPandas
